import Mathlib

/-!
Verification of the node-cache-manager-dynamodb store core.

The TypeScript sources are shallowly embedded: JavaScript strings are
modelled as `List Char` (`Str`), DynamoDB attribute values as a structure
with optional `S`/`N` members (the `N` member holds the integer denoted by
the stored decimal string), items/records as association lists from
attribute name to attribute value (property lookup returns the first, i.e.
latest-written, binding), and fallible JavaScript code (thrown `TypeError`s
and explicit `throw new Error(...)`) as `Except String`.  Asynchronous
provider calls are modelled by oracle functions passed in as parameters.
-/

set_option maxRecDepth 4000

deriving instance DecidableEq for Except

/-- JavaScript strings, modelled as lists of characters. -/
abbrev Str := List Char

/-- A DynamoDB attribute value; only the `S` (string) and `N` (number)
members are used by this code base.  `N` is stored by the source as the
decimal string of an integer; we keep the integer itself. -/
structure AttributeValue where
  S : Option Str
  N : Option Int
deriving DecidableEq, Repr

/-- A DynamoDB item (`Record<string, AttributeValue>`): an association list;
property lookup returns the first binding, so later writes are prepended. -/
abbrev Item := List (Str × AttributeValue)

/-- JavaScript property read `item[name]`: `undefined` when absent. -/
def lookupAttr (item : Item) (name : Str) : Option AttributeValue :=
  (item.find? (fun p => decide (p.1 = name))).map (fun p => p.2)

/-- An unmarshalled value, as produced by `@aws-sdk/util-dynamodb`'s
`unmarshall`: the attribute object `{ S: s }` becomes the plain string `s`
and `{ N: n }` the plain number denoted by `n` (an attribute with neither
member set never arises from the provider; it unmarshalls to
`undefined`). -/
inductive UnVal where
  | uStr (s : Str)
  | uNum (n : Int)
  | uUndefined
deriving DecidableEq, Repr

/-- `unmarshall` on one attribute value. -/
def unmarshallValue : AttributeValue → UnVal
  | ⟨some s, _⟩ => .uStr s
  | ⟨none, some n⟩ => .uNum n
  | ⟨none, none⟩ => .uUndefined

/-- `unmarshall(item)`: a plain object with the same attribute names and
the unmarshalled values. -/
def unmarshall (item : Item) : List (Str × UnVal) :=
  item.map (fun p => (p.1, unmarshallValue p.2))

/-- JS property read `record[name]` on an unmarshalled record. -/
def lookupUn (record : List (Str × UnVal)) (name : Str) : Option UnVal :=
  (record.find? (fun p => decide (p.1 = name))).map (fun p => p.2)

/-- The JS read `v.N` on an unmarshalled value: a plain string or number
has no `N` property, so the read always yields `undefined`. -/
def memberN (_v : UnVal) : Option Int := none

/-- The `keys` part of the store configuration (`src/types.ts`). -/
structure KeysConfig where
  pk : Str
  sk : Option Str
  ex : Str
deriving DecidableEq, Repr

/-- The store configuration (`src/types.ts`); the client handle and the
metadata function are irrelevant to the verified claims and omitted. -/
structure Config where
  table : Str
  keys : KeysConfig
  ttl : Option Int
deriving DecidableEq, Repr

/-- The message of a JavaScript `TypeError` raised by reading a member of
`undefined`, as thrown by `serializeKey` on a missing attribute. -/
def jsUndefinedError : String := "TypeError: Cannot read properties of undefined"

/-- JS `String.prototype.split` with a single-character separator: splits at
every occurrence of the separator. -/
def splitOnChar (sep : Char) : Str → List Str
  | [] => [[]]
  | c :: cs =>
    match splitOnChar sep cs with
    | [] => [[c]]
    | h :: t => if c = sep then [] :: h :: t else (c :: h) :: t

/-- The result of coercing a possibly-`undefined` string to a JS object
property key: `undefined` prints as the text below. -/
def jsKeyOf : Option Str → Str
  | some k => k
  | none => "undefined".data

/-- `msToS` from `src/utils.ts`: `Math.round(ms / 1000)` on an integer
millisecond count, i.e. floor of `ms / 1000 + 1 / 2`. -/
def msToS (ms : Int) : Int := Int.fdiv (ms + 500) 1000

/-- `serializeKey` from `src/utils.ts`: reads the partition attribute's `S`
member and the `S` member of the attribute named by `config.keys.sk || ''`;
reading a member of a missing attribute throws a `TypeError`.  Returns
`` pk + '+' + sk `` when the sort value is truthy, otherwise the partition
value (which is `undefined` when the attribute has no `S` member). -/
def serializeKey (item : Item) (config : Config) : Except String (Option Str) :=
  match lookupAttr item config.keys.pk with
  | none => .error jsUndefinedError
  | some pkAttr =>
    match lookupAttr item (config.keys.sk.getD []) with
    | none => .error jsUndefinedError
    | some skAttr =>
      match skAttr.S with
      | some sk =>
        if sk = [] then .ok pkAttr.S
        else .ok (some ((jsKeyOf pkAttr.S) ++ '+' :: sk))
      | none => .ok pkAttr.S

/-- `deserializeKey` from `src/utils.ts`: rejects empty keys and keys
starting with the delimiter, splits on `'+'`, takes the first two segments
as partition and (possibly `undefined`) sort values, and builds the store
key object; the sort attribute is written only when the schema has a sort
field (overwriting the partition attribute when the two names coincide,
as `Object.assign` does). -/
def deserializeKey (key : Str) (config : Config) : Except String Item :=
  if key = [] ∨ key.head? = some '+' then .error "Unsupported cache key"
  else
    let parts := splitOnChar '+' key
    let pk : Str := parts.headD []
    let sk : Option Str := parts[1]?
    match config.keys.sk with
    | none => .ok [(config.keys.pk, ⟨some pk, none⟩)]
    | some skName =>
      if skName = config.keys.pk then .ok [(config.keys.pk, ⟨sk, none⟩)]
      else .ok [(config.keys.pk, ⟨some pk, none⟩), (skName, ⟨sk, none⟩)]

/-- JS `pattern.endsWith(c)` for a one-character argument. -/
def endsWithChar (c : Char) (s : Str) : Bool := s.getLast? = some c

/-- `validateKeyPattern` from `src/utils.ts`: a falsy (absent or empty)
pattern passes; otherwise the pattern must end with the mask, split into
fewer than three pieces on the mask, and into exactly two on the
delimiter. -/
def validateKeyPattern (pattern : Option Str) : Except String Unit :=
  match pattern with
  | none => .ok ()
  | some p =>
    if p = [] then .ok ()
    else if endsWithChar '*' p ∧ (splitOnChar '*' p).length < 3
        ∧ (splitOnChar '+' p).length = 2 then .ok ()
    else .error "Bad key pattern provided. Possible value bar+fo*"

/-- `isExpired` from `src/utils.ts`, as invoked by `get` and `mget`: both
call sites pass the record through `unmarshall` first, so `record[ex]` is a
plain string or number whose `.N` member is `undefined` (`memberN`);
`parseInt(undefined)` is `NaN`, and `NaN * 1000 < Date.now()` is `false`.
Reading `.N` of an absent attribute throws a `TypeError`.  The test can
therefore never report an entry expired. -/
def isExpired (record : List (Str × UnVal)) (config : Config) (now : Int) :
    Except String Bool :=
  match lookupUn record config.keys.ex with
  | none => .error jsUndefinedError
  | some v =>
    match memberN v with
    | none => .ok false
    | some n => .ok (decide (n * 1000 < now))

/-- `lodash.chunk`: consecutive slices of at most `n` elements (empty for a
chunk size of zero, as lodash returns). -/
def chunkList (n : Nat) : List α → List (List α)
  | [] => []
  | x :: xs =>
    if n = 0 then []
    else (x :: xs).take n :: chunkList n ((x :: xs).drop n)
termination_by l => l.length
decreasing_by
  simp only [List.length_drop, List.length_cons]
  omega

/-- Sequencing a fallible map over a list, stopping at the first raised
error: the effect of `array.map(f)` when `f` can throw. -/
def exceptMap (f : α → Except String β) : List α → Except String (List β)
  | [] => .ok []
  | x :: xs =>
    match f x with
    | .error e => .error e
    | .ok y =>
      match exceptMap f xs with
      | .error e => .error e
      | .ok ys => .ok (y :: ys)

/-- `ttl || config.ttl || DynamoDBStore.defaultTtl` (60000): JavaScript
`||` takes the right operand when the left is `undefined` or `0`. -/
def resolveTtl (ttlArg : Option Int) (cfgTtl : Option Int) : Int :=
  match ttlArg with
  | some t => if t ≠ 0 then t else
      match cfgTtl with
      | some c => if c ≠ 0 then c else 60000
      | none => 60000
  | none =>
      match cfgTtl with
      | some c => if c ≠ 0 then c else 60000
      | none => 60000

/-- The put input built by `buildSetInput`/`buildMSetInput`: the item is
`{ ...data, ...deserializeKey(key), [ex]: { N: expiresAt } }`, so the later
spreads win; with first-binding-wins lookup we prepend them. -/
def buildPutItem (key : Str) (data : Item) (config : Config) (ttl now : Int) :
    Except String Item :=
  match deserializeKey key config with
  | .error e => .error e
  | .ok dk => .ok ((config.keys.ex, ⟨none, some (msToS (now + ttl))⟩) :: dk ++ data)

/-- `buildMGetInput` from `src/utils.ts`: the `Keys` array of store keys for
one batch-get request (each logical key deserialized; a bad key throws). -/
def buildMGetInput (keys : List Str) (config : Config) : Except String (List Item) :=
  exceptMap (fun k => deserializeKey k config) keys

/-- `buildMSetInput` from `src/utils.ts`: one `PutRequest` item per entry. -/
def buildMSetInput (args : List (Str × Item)) (config : Config) (ttl now : Int) :
    Except String (List Item) :=
  exceptMap (fun kd => buildPutItem kd.1 kd.2 config ttl now) args

/-- `buildMDelInput` from `src/utils.ts`: one `DeleteRequest` per key, each
carrying the deserialized store key. -/
def buildMDelInput (keys : List Str) (config : Config) : Except String (List Item) :=
  exceptMap (fun k => deserializeKey k config) keys

/-- The update request built by `buildTouchInput` from `src/utils.ts`:
`UpdateExpression` is the constant text `set #ex = :ex` with `#ex` bound to
the configured expiration attribute name and `:ex` to the freshly computed
expiration; only those parts are kept. -/
structure TouchInput where
  Key : Item
  exName : Str
  exValue : Int
deriving DecidableEq, Repr

/-- `buildTouchInput` from `src/utils.ts`. -/
def buildTouchInput (key : Str) (config : Config) (ttl now : Int) :
    Except String TouchInput :=
  match deserializeKey key config with
  | .error e => .error e
  | .ok dk => .ok ⟨dk, config.keys.ex, msToS (now + ttl)⟩

/-- Modelled from the spec: the provider-side effect of the update request
built by `buildTouchInput` — the expression `set #ex = :ex` replaces the
expiration attribute and nothing else (spec 4.2: "an in-place update of
only the expiration attribute, leaving payload/metadata untouched"). -/
def applyTouch (inp : TouchInput) (item : Item) : Item :=
  (inp.exName, ⟨none, some inp.exValue⟩) :: item

/-- The kinds of provider commands the store can send. -/
inductive CommandKind where
  | getItem
  | putItem
  | deleteItem
  | batchGetItem
  | batchWriteItem
  | updateItem
  | scan
  | query
deriving DecidableEq, Repr

namespace DynamoDBStore

/-- `DynamoDBStore.defaultTtl` from `src/store.ts`. -/
def defaultTtl : Int := 60000

/-- `DynamoDBStore.get`: build the get input (deserializing the key), ask
the provider for the item at that store key, report absent when the record
is missing, UNMARSHALL the record, apply the expiry test to the
unmarshalled record (the source's `isExpired(unmarshall(response.Item))` —
which can never fire, see `isExpired`), and return its `data` member. -/
def get (key : Str) (config : Config) (now : Int) (fetch : Item → Option Item) :
    Except String (Option UnVal) :=
  match deserializeKey key config with
  | .error e => .error e
  | .ok dk =>
    match fetch dk with
    | none => .ok none
    | some item =>
      match isExpired (unmarshall item) config now with
      | .error e => .error e
      | .ok true => .ok none
      | .ok false => .ok (lookupUn (unmarshall item) "data".data)

/-- The provider commands issued by one `get` call. -/
def getCommands (key : Str) (config : Config) : Except String (List CommandKind) :=
  match deserializeKey key config with
  | .error e => .error e
  | .ok _ => .ok [CommandKind.getItem]

/-- The store-key-indexed map `mget` builds from one chunk's response via
`items.reduce((acc, item) => { acc[serializeKey(item)] = item; ... })`:
later assignments win, so each binding is prepended. -/
def buildKeyMap (config : Config) (acc : List (Str × Item)) :
    List Item → Except String (List (Str × Item))
  | [] => .ok acc
  | it :: rest =>
    match serializeKey it config with
    | .error e => .error e
    | .ok k => buildKeyMap config ((jsKeyOf k, it) :: acc) rest

/-- `map[key]` on the reduce-built object. -/
def lookupMap (m : List (Str × Item)) (k : Str) : Option Item :=
  (m.find? (fun p => decide (p.1 = k))).map (fun p => p.2)

/-- Processing of one chunk of `mget` (`src/store.ts` lines 76–94): build
the batch-get input, read the provider's response items for this chunk,
index them by serialized store key (still marshalled at this point), and
answer the chunk's keys in order — `unmarshall(map[key])` first, then the
expiry test on the UNMARSHALLED record (which can never fire, see
`isExpired`), then its `data` member. -/
def mgetChunk (config : Config) (now : Int) (provider : List Str → List Item)
    (ks : List Str) : Except String (List (Option UnVal)) :=
  match buildMGetInput ks config with
  | .error e => .error e
  | .ok _ =>
    match buildKeyMap config [] (provider ks) with
    | .error e => .error e
    | .ok m =>
      exceptMap (fun k =>
        match lookupMap m k with
        | none => .ok none
        | some item =>
          match isExpired (unmarshall item) config now with
          | .error e => .error e
          | .ok b => .ok (if b then none else lookupUn (unmarshall item) "data".data)) ks

/-- `DynamoDBStore.mget`: chunk the keys by 100, process every chunk, and
flatten the per-chunk answers back into one list. -/
def mget (keys : List Str) (config : Config) (now : Int)
    (provider : List Str → List Item) :
    Except String (List (Option UnVal)) :=
  match exceptMap (mgetChunk config now provider) (chunkList 100 keys) with
  | .error e => .error e
  | .ok results => .ok results.flatten

/-- The batch-get requests `mget` sends: one per 100-key chunk. -/
def mgetRequests (keys : List Str) (config : Config) :
    Except String (List (List Item)) :=
  exceptMap (fun ks => buildMGetInput ks config) (chunkList 100 keys)

/-- The batch-write requests `mset` sends: one per 25-entry chunk, with the
ttl resolved as `ttl || config.ttl || defaultTtl`. -/
def msetRequests (args : List (Str × Item)) (config : Config)
    (ttlArg : Option Int) (now : Int) : Except String (List (List Item)) :=
  exceptMap (fun vs => buildMSetInput vs config (resolveTtl ttlArg config.ttl) now)
    (chunkList 25 args)

/-- The batch-write requests `mdel` sends: one per 25-key chunk
(`src/store.ts` lines 125–134). -/
def mdelRequests (keys : List Str) (config : Config) :
    Except String (List (List Item)) :=
  exceptMap (fun ks => buildMDelInput ks config) (chunkList 25 keys)

/-- The put input `set` builds (ttl resolved as in `src/store.ts` line 60). -/
def setOpInput (key : Str) (data : Item) (config : Config) (ttlArg : Option Int)
    (now : Int) : Except String Item :=
  buildPutItem key data config (resolveTtl ttlArg config.ttl) now

/-- The update input `touch` builds (`src/store.ts` lines 183–189). -/
def touchOp (key : Str) (config : Config) (ttlArg : Option Int) (now : Int) :
    Except String TouchInput :=
  buildTouchInput key config (resolveTtl ttlArg config.ttl) now

/-- `DynamoDBStore.keys` in scan mode (no pattern): walk the pages the
provider returns, serializing every returned item; no expiration filter. -/
def keysOp (pages : List (List Item)) (config : Config) : Except String (List Str) :=
  match exceptMap (fun items =>
      exceptMap (fun it =>
        match serializeKey it config with
        | .error e => .error e
        | .ok k => .ok (jsKeyOf k)) items) pages with
  | .error e => .error e
  | .ok ls => .ok ls.flatten

/-- The provider commands issued by one patternless `keys()` call: one scan
per page. -/
def keysCommands (pages : List (List Item)) : List CommandKind :=
  pages.map (fun _ => CommandKind.scan)

/-- `DynamoDBStore.ttl`: `response.Item?.[ex].N` — optional chaining only
guards the absent item (then the whole read is `undefined`); when the item
exists but lacks the expiration attribute, `.N` of `undefined` throws a
`TypeError`.  The record is NOT unmarshalled here, so `.N` really is the
stored decimal string: a truthy string gives `parseInt(s) * 1000 - now`,
a falsy one gives `-1` (a stored `"0"` is truthy). -/
def ttlOp (key : Str) (config : Config) (now : Int) (fetch : Item → Option Item) :
    Except String Int :=
  match deserializeKey key config with
  | .error e => .error e
  | .ok dk =>
    match fetch dk with
    | none => .ok (-1)
    | some item =>
      match lookupAttr item config.keys.ex with
      | none => .error jsUndefinedError
      | some a =>
        match a.N with
        | none => .ok (-1)
        | some n => .ok (n * 1000 - now)

end DynamoDBStore

/-- `UnprocessedDataException` and generic provider errors
(`src/utils/backoff.ts`). -/
inductive JsError where
  | unprocessedData (remaining : List Str)
  | generic (msg : String)
deriving DecidableEq, Repr

/-- The retry predicate installed by the `backoff` helper:
`err instanceof UnprocessedDataException`. -/
def retryPredicate : JsError → Bool
  | .unprocessedData _ => true
  | .generic _ => false

/-- Outcome of an awaited JS call: resolved value or thrown error. -/
inductive JsResult (α : Type) where
  | ok (a : α)
  | err (e : JsError)
deriving DecidableEq, Repr

/-- Modelled from the spec: the `exponential-backoff` dependency driving the
`backoff` helper of `src/utils/backoff.ts` (the dependency itself is not
part of this repository).  `request i` is the i-th attempt (1-based);
`remaining` counts the attempts still allowed after the current one.  A
successful attempt resolves; a failed one is retried while the retry
predicate accepts the error and attempts remain, and the last error is
rethrown otherwise.  Delays are timing-only and not modelled. -/
def backOffRun (request : Nat → JsResult α) (retry : JsError → Bool)
    (attempt : Nat) : Nat → JsResult α × Nat
  | 0 => (request attempt, 1)
  | r + 1 =>
    match request attempt with
    | .ok a => (.ok a, 1)
    | .err e =>
      if retry e then
        let p := backOffRun request retry (attempt + 1) r
        (p.1, p.2 + 1)
      else (.err e, 1)

/-- The `backoff` helper of `src/utils/backoff.ts` with an explicit
`numOfAttempts` (the dependency's default is 10, the value the spec
names); the second component counts provider invocations. -/
def backoff (request : Nat → JsResult α) (numOfAttempts : Nat) : JsResult α × Nat :=
  backOffRun request retryPredicate 1 (numOfAttempts - 1)

/-- One provider response to a batch request: a raised service error, or a
normal response carrying its (possibly empty) unprocessed subset. -/
inductive ProviderResp where
  | failure (msg : String)
  | response (unprocessed : List Str)
deriving DecidableEq, Repr

/-- Modelled from the spec: the per-chunk retry driver of the Batch Retry
Engine (spec 4.3) — issue the chunk's batch request, treat a response with
a non-empty unprocessed subset as an `UnprocessedDataException` carrying
that subset, finish when the subset is empty, and let the `backoff` helper
retry with the 10-attempt budget.  Only the helper itself is present in
the sources; this driver follows the spec's wording. -/
def runBatchChunk (provider : Nat → ProviderResp) (numOfAttempts : Nat) :
    JsResult Unit × Nat :=
  backoff (fun i =>
    match provider i with
    | .failure m => .err (.generic m)
    | .response [] => .ok ()
    | .response u => .err (.unprocessedData u)) numOfAttempts

theorem backOffRun_zero {request : Nat → JsResult α} {retry : JsError → Bool}
    {attempt : Nat} : backOffRun request retry attempt 0 = (request attempt, 1) :=
  rfl

theorem backOffRun_succ {request : Nat → JsResult α} {retry : JsError → Bool}
    {attempt r : Nat} :
    backOffRun request retry attempt (r + 1) =
      (match request attempt with
       | .ok a => (.ok a, 1)
       | .err e =>
         if retry e then
           let p := backOffRun request retry (attempt + 1) r
           (p.1, p.2 + 1)
         else (.err e, 1)) :=
  rfl

theorem backOffRun_always_retryable {request : Nat → JsResult α}
    {e : Nat → JsError} (retry : JsError → Bool)
    (hreq : ∀ i, request i = .err (e i)) (hretry : ∀ i, retry (e i) = true) :
    ∀ r attempt, backOffRun request retry attempt r = (.err (e (attempt + r)), r + 1) := by
  intro r
  induction r with
  | zero =>
    intro attempt
    rw [backOffRun_zero, hreq attempt]
    simp
  | succ r ih =>
    intro attempt
    rw [backOffRun_succ, hreq attempt, ih (attempt + 1)]
    simp only [hretry attempt]
    have harith : attempt + 1 + r = attempt + (r + 1) := by omega
    simp [harith]

/-- C1 (spec-modelled driver): a chunk whose provider response always
carries a non-empty unprocessed subset fails with an
`UnprocessedDataException` carrying the last-known unprocessed subset,
after exactly the 10-attempt budget, the provider having been invoked
exactly 10 times. -/
theorem retry_exhaustion (provider : Nat → ProviderResp) (u : Nat → List Str)
    (hresp : ∀ i, provider i = .response (u i)) (hne : ∀ i, u i ≠ []) :
    runBatchChunk provider 10 = (.err (.unprocessedData (u 10)), 10) := by
  have hreq : ∀ i, (fun i =>
      match provider i with
      | .failure m => JsResult.err (JsError.generic m)
      | .response [] => JsResult.ok ()
      | .response uu => JsResult.err (JsError.unprocessedData uu)) i =
      .err (.unprocessedData (u i)) := by
    intro i
    simp only [hresp i]
    cases hu : u i with
    | nil => exact absurd hu (hne i)
    | cons a as => rfl
  show backoff _ 10 = _
  rw [backoff, show (10 : Nat) - 1 = 9 from rfl,
    backOffRun_always_retryable retryPredicate hreq (fun i => rfl) 9 1]

/-- C1 witness: a provider that always reports the unprocessed subset
`[ "k" ]` exhausts the 10-attempt budget. -/
theorem retry_exhaustion_witness :
    runBatchChunk (fun _ => .response ["k".data]) 10 =
      (.err (.unprocessedData ["k".data]), 10) :=
  retry_exhaustion (fun _ => .response ["k".data]) (fun _ => ["k".data])
    (fun _ => rfl) (fun _ => List.cons_ne_nil _ _)

/-- C6 (spec-modelled driver): a provider call that raises a generic
service error makes the chunk fail at once — one single provider
invocation and the error propagated unchanged, with no retry. -/
theorem service_error_single_call (provider : Nat → ProviderResp) (m : String)
    (h : provider 1 = .failure m) :
    runBatchChunk provider 10 = (.err (.generic m), 1) := by
  show backoff _ 10 = _
  rw [backoff, show (10 : Nat) - 1 = 8 + 1 from rfl, backOffRun_succ]
  simp only [h]
  rfl

/-- C6 witness: a provider raising `"boom"` on the first call. -/
theorem service_error_single_call_witness :
    runBatchChunk (fun _ => .failure "boom") 10 = (.err (.generic "boom"), 1) :=
  service_error_single_call (fun _ => .failure "boom") "boom" rfl

/-- A concrete configuration with a sort field, as in the repository tests. -/
def cfg0 : Config :=
  { table := "TestCache".data
  , keys := { pk := "Id".data, sk := some "Name".data, ex := "ExpiresAt".data }
  , ttl := none }

theorem splitOnChar_ne_nil (sep : Char) (s : Str) : splitOnChar sep s ≠ [] := by
  induction s with
  | nil => simp [splitOnChar]
  | cons c cs ih =>
    simp only [splitOnChar]
    cases h : splitOnChar sep cs with
    | nil => simp
    | cons hd tl => by_cases hc : c = sep <;> simp [hc]

theorem splitOnChar_length (sep : Char) (s : Str) :
    (splitOnChar sep s).length = s.count sep + 1 := by
  induction s with
  | nil => simp [splitOnChar]
  | cons c cs ih =>
    simp only [splitOnChar]
    cases h : splitOnChar sep cs with
    | nil => exact absurd h (splitOnChar_ne_nil sep cs)
    | cons hd tl =>
      rw [h] at ih
      simp only [List.length_cons] at ih
      by_cases hc : c = sep
      · subst hc
        simp only [if_pos rfl, List.length_cons, List.count_cons, beq_self_eq_true,
          if_true]
        omega
      · have hcb : (c == sep) = false := beq_eq_false_iff_ne.mpr hc
        simp only [if_neg hc, List.length_cons, List.count_cons, hcb,
          Bool.false_eq_true, if_false]
        omega

theorem splitOnChar_of_not_mem (sep : Char) (s : Str) (h : sep ∉ s) :
    splitOnChar sep s = [s] := by
  induction s with
  | nil => simp [splitOnChar]
  | cons c cs ih =>
    have hc : c ≠ sep := fun hcc => h (hcc ▸ List.mem_cons_self c cs)
    have hcs : sep ∉ cs := fun hm => h (List.mem_cons_of_mem c hm)
    simp only [splitOnChar, ih hcs, if_neg hc]

theorem splitOnChar_append (sep : Char) (p s : Str) (h : sep ∉ p) :
    splitOnChar sep (p ++ sep :: s) = p :: splitOnChar sep s := by
  induction p with
  | nil =>
    simp only [List.nil_append, splitOnChar]
    cases hs : splitOnChar sep s with
    | nil => exact absurd hs (splitOnChar_ne_nil sep s)
    | cons hd tl => simp
  | cons c p' ih =>
    have hc : c ≠ sep := fun hcc => h (hcc ▸ List.mem_cons_self c p')
    have hp : sep ∉ p' := fun hm => h (List.mem_cons_of_mem c hm)
    simp only [List.cons_append, List.append_eq, splitOnChar, ih hp, if_neg hc]

example : deserializeKey "a+b".data cfg0 =
    .ok [("Id".data, ⟨some "a".data, none⟩), ("Name".data, ⟨some "b".data, none⟩)] := by
  decide

example : (deserializeKey "a+b+c".data cfg0).bind (fun it => serializeKey it cfg0) =
    .ok (some "a+b".data) := by decide

example : validateKeyPattern (some "bar+fo*".data) = .ok () := by decide
example : validateKeyPattern (some "bar*".data) ≠ .ok () := by decide
example : validateKeyPattern (some "bar+fo**".data) ≠ .ok () := by decide
example : validateKeyPattern (some "a*+b*".data) ≠ .ok () := by decide

theorem lookupAttr_cons_self (item : Item) (name : Str) (v : AttributeValue) :
    lookupAttr ((name, v) :: item) name = some v := by
  simp [lookupAttr, List.find?_cons_of_pos]

theorem lookupAttr_cons_ne (item : Item) (name n2 : Str) (v : AttributeValue)
    (h : n2 ≠ name) : lookupAttr ((n2, v) :: item) name = lookupAttr item name := by
  simp [lookupAttr, List.find?_cons_of_neg, h]

theorem lookupUn_cons_ne (record : List (Str × UnVal)) (name n2 : Str)
    (v : UnVal) (h : n2 ≠ name) :
    lookupUn ((n2, v) :: record) name = lookupUn record name := by
  simp [lookupUn, List.find?_cons_of_neg, h]

theorem lookupUn_unmarshall (item : Item) (name : Str) :
    lookupUn (unmarshall item) name = (lookupAttr item name).map unmarshallValue := by
  induction item with
  | nil => rfl
  | cons p rest ih =>
    obtain ⟨n, v⟩ := p
    by_cases h : n = name
    · subst h
      simp [lookupUn, lookupAttr, unmarshall, List.find?_cons_of_pos]
    · rw [show unmarshall ((n, v) :: rest) =
        (n, unmarshallValue v) :: unmarshall rest from rfl,
        lookupUn_cons_ne _ _ _ _ h, lookupAttr_cons_ne _ _ _ _ h, ih]

/-- On a record that carries the expiration attribute, the expiry test as
the program runs it — on the unmarshalled record — always answers `false`. -/
theorem isExpired_of_attr_present {item : Item} {config : Config} {now : Int}
    (h : lookupAttr item config.keys.ex ≠ none) :
    isExpired (unmarshall item) config now = .ok false := by
  rw [isExpired, lookupUn_unmarshall]
  cases hx : lookupAttr item config.keys.ex with
  | none => exact absurd hx h
  | some a => rfl

/-- C2 counterexample: `"a+b+c"` is a valid logical key by the claim's own
criterion (non-empty, does not start with the delimiter), the schema has a
sort field, yet decode-then-encode yields `"a+b"`, not `"a+b+c"`: the
source splits on every delimiter and keeps only the first two segments. -/
theorem roundtrip_counterexample :
    "a+b+c".data ≠ [] ∧ ("a+b+c".data).head? ≠ some '+' ∧ cfg0.keys.sk ≠ none ∧
      (deserializeKey "a+b+c".data cfg0).bind (fun it => serializeKey it cfg0) =
        .ok (some "a+b".data) ∧
      (deserializeKey "a+b+c".data cfg0).bind (fun it => serializeKey it cfg0) ≠
        .ok (some "a+b+c".data) := by
  decide

/-- C2 (amended): under a schema whose sort field differs from the
partition field, decode-then-encode is the identity on every valid logical
key that contains at most one delimiter and, when it contains one, has
non-empty segments on both sides of it. -/
theorem serializeKey_deserializeKey_roundtrip (config : Config) (skName k : Str)
    (hsk : config.keys.sk = some skName) (hne : skName ≠ config.keys.pk)
    (hvalid : ('+' ∉ k ∧ k ≠ []) ∨
      ∃ p s, k = p ++ '+' :: s ∧ p ≠ [] ∧ s ≠ [] ∧ '+' ∉ p ∧ '+' ∉ s) :
    (deserializeKey k config).bind (fun it => serializeKey it config) =
      .ok (some k) := by
  rcases hvalid with ⟨hnp, hne0⟩ | ⟨p, s, hk, hp0, hs0, hpp, hsp⟩
  · have hhead : k.head? ≠ some '+' := by
      cases k with
      | nil => simp
      | cons c cs =>
        intro hcc
        cases Option.some.inj hcc
        exact hnp (List.mem_cons_self _ _)
    have hguard : ¬(k = [] ∨ k.head? = some '+') := not_or.mpr ⟨hne0, hhead⟩
    have hd : deserializeKey k config =
        .ok [(config.keys.pk, ⟨some k, none⟩), (skName, ⟨none, none⟩)] := by
      rw [deserializeKey, if_neg hguard]
      simp only [splitOnChar_of_not_mem '+' k hnp, hsk, List.headD_cons,
        List.getElem?_cons_succ, List.getElem?_nil, if_neg hne]
    rw [hd]
    show serializeKey [(config.keys.pk, ⟨some k, none⟩), (skName, ⟨none, none⟩)]
      config = .ok (some k)
    have h1 : lookupAttr [(config.keys.pk, (⟨some k, none⟩ : AttributeValue)),
        (skName, ⟨none, none⟩)] config.keys.pk = some ⟨some k, none⟩ :=
      lookupAttr_cons_self _ _ _
    have h2 : lookupAttr [(config.keys.pk, (⟨some k, none⟩ : AttributeValue)),
        (skName, ⟨none, none⟩)] (config.keys.sk.getD []) = some ⟨none, none⟩ := by
      rw [hsk, Option.getD_some, lookupAttr_cons_ne _ _ _ _ (Ne.symm hne)]
      exact lookupAttr_cons_self _ _ _
    simp [serializeKey, h1, h2]
  · subst hk
    have hhead : (p ++ '+' :: s).head? ≠ some '+' := by
      cases p with
      | nil => exact absurd rfl hp0
      | cons c cs =>
        intro hcc
        simp only [List.cons_append, List.head?] at hcc
        cases Option.some.inj hcc
        exact hpp (List.mem_cons_self _ _)
    have hne0 : p ++ '+' :: s ≠ [] := by
      cases p <;> simp
    have hguard : ¬(p ++ '+' :: s = [] ∨ (p ++ '+' :: s).head? = some '+') :=
      not_or.mpr ⟨hne0, hhead⟩
    have hd : deserializeKey (p ++ '+' :: s) config =
        .ok [(config.keys.pk, ⟨some p, none⟩), (skName, ⟨some s, none⟩)] := by
      rw [deserializeKey, if_neg hguard]
      simp only [splitOnChar_append '+' p s hpp, splitOnChar_of_not_mem '+' s hsp,
        hsk, List.headD_cons, List.getElem?_cons_succ, List.getElem?_cons_zero,
        if_neg hne]
    rw [hd]
    show serializeKey [(config.keys.pk, ⟨some p, none⟩), (skName, ⟨some s, none⟩)]
      config = .ok (some (p ++ '+' :: s))
    have h1 : lookupAttr [(config.keys.pk, (⟨some p, none⟩ : AttributeValue)),
        (skName, ⟨some s, none⟩)] config.keys.pk = some ⟨some p, none⟩ :=
      lookupAttr_cons_self _ _ _
    have h2 : lookupAttr [(config.keys.pk, (⟨some p, none⟩ : AttributeValue)),
        (skName, ⟨some s, none⟩)] (config.keys.sk.getD []) = some ⟨some s, none⟩ := by
      rw [hsk, Option.getD_some, lookupAttr_cons_ne _ _ _ _ (Ne.symm hne)]
      exact lookupAttr_cons_self _ _ _
    simp [serializeKey, h1, h2, jsKeyOf, hs0]

/-- C2 witness: the round-trip theorem applied to the concrete key
`"a+b"` under the test configuration. -/
theorem roundtrip_witness :
    (deserializeKey "a+b".data cfg0).bind (fun it => serializeKey it cfg0) =
      .ok (some "a+b".data) :=
  serializeKey_deserializeKey_roundtrip cfg0 "Name".data "a+b".data rfl
    (by decide)
    (Or.inr ⟨"a".data, "b".data, rfl, by decide, by decide, by decide, by decide⟩)

theorem exceptMap_ok_of_forall {f : α → Except String β} {g : α → β} (l : List α)
    (h : ∀ x ∈ l, f x = .ok (g x)) : exceptMap f l = .ok (l.map g) := by
  induction l with
  | nil => rfl
  | cons x xs ih =>
    simp only [exceptMap, h x (List.mem_cons_self x xs),
      ih (fun y hy => h y (List.mem_cons_of_mem x hy)), List.map_cons]

theorem exceptMap_ok_exists {f : α → Except String β} (l : List α)
    (h : ∀ x ∈ l, ∃ y, f x = .ok y) :
    ∃ r, exceptMap f l = .ok r ∧ r.length = l.length ∧
      ∀ x ∈ l, ∀ y, f x = .ok y → y ∈ r := by
  induction l with
  | nil => exact ⟨[], rfl, rfl, by simp⟩
  | cons x xs ih =>
    obtain ⟨y, hy⟩ := h x (List.mem_cons_self x xs)
    obtain ⟨r, hr, hlen, hmem⟩ := ih (fun z hz => h z (List.mem_cons_of_mem x hz))
    refine ⟨y :: r, by simp only [exceptMap, hy, hr], by simp [hlen], ?_⟩
    intro z hz w hw
    rcases List.mem_cons.mp hz with hzx | hzs
    · subst hzx
      rw [hy] at hw
      obtain rfl := Except.ok.inj hw
      exact List.mem_cons_self _ _
    · exact List.mem_cons_of_mem _ (hmem z hzs w hw)

theorem exceptMap_ok_rel {f : α → Except String β} {P : α → β → Prop} (l : List α)
    (h : ∀ x ∈ l, ∃ y, f x = .ok y ∧ P x y) :
    ∃ r, exceptMap f l = .ok r ∧ List.Forall₂ P l r := by
  induction l with
  | nil => exact ⟨[], rfl, List.Forall₂.nil⟩
  | cons x xs ih =>
    obtain ⟨y, hy, hp⟩ := h x (List.mem_cons_self x xs)
    obtain ⟨r, hr, hrel⟩ := ih (fun z hz => h z (List.mem_cons_of_mem x hz))
    exact ⟨y :: r, by simp only [exceptMap, hy, hr], List.Forall₂.cons hp hrel⟩

theorem exceptMap_error_head {f : α → Except String β} (x : α) (xs : List α)
    (e : String) (h : f x = .error e) : exceptMap f (x :: xs) = .error e := by
  simp only [exceptMap, h]

theorem forall₂_map_length {fa : α → Nat} {l : List α} {r : List β}
    (h : List.Forall₂ (fun a b => (fb b : Nat) = fa a) l r) :
    r.map fb = l.map fa := by
  induction h with
  | nil => rfl
  | cons hp _ ih => simp [ih, hp]

theorem chunkList_nil (n : Nat) : chunkList n ([] : List α) = [] := by
  simp [chunkList]

theorem chunkList_cons (n : Nat) (hn : n ≠ 0) (l : List α) (hl : l ≠ []) :
    chunkList n l = l.take n :: chunkList n (l.drop n) := by
  cases l with
  | nil => exact absurd rfl hl
  | cons x xs => simp [chunkList, hn]

theorem chunkList_flatten (n : Nat) (hn : n ≠ 0) (l : List α) :
    (chunkList n l).flatten = l := by
  cases hl : l with
  | nil =>
    subst hl
    rw [chunkList_nil]
    rfl
  | cons x xs =>
    rw [← hl, chunkList_cons n hn l (by rw [hl]; simp), List.flatten_cons,
      chunkList_flatten n hn (l.drop n), List.take_append_drop]
termination_by l.length
decreasing_by
  subst hl
  simp only [List.length_drop, List.length_cons]
  omega

theorem chunkList_mem_length (n : Nat) (hn : n ≠ 0) (l c : List α)
    (hc : c ∈ chunkList n l) : c.length ≤ n := by
  cases hl : l with
  | nil =>
    subst hl
    rw [chunkList_nil] at hc
    cases hc
  | cons x xs =>
    rw [chunkList_cons n hn l (by rw [hl]; simp)] at hc
    rcases List.mem_cons.mp hc with h | h
    · subst h
      rw [List.length_take]
      exact Nat.min_le_left _ _
    · exact chunkList_mem_length n hn (l.drop n) c h
termination_by l.length
decreasing_by
  subst hl
  simp only [List.length_drop, List.length_cons]
  omega

theorem chunkList_two (n : Nat) (hn : n ≠ 0) (l : List α) (h1 : n < l.length)
    (h2 : l.length - n ≤ n) :
    (chunkList n l).map List.length = [n, l.length - n] := by
  have hl : l ≠ [] := by
    intro h
    rw [h] at h1
    simp at h1
  rw [chunkList_cons n hn l hl]
  have hd : l.drop n ≠ [] := by
    intro h
    have hh : (l.drop n).length = l.length - n := List.length_drop n l
    rw [h] at hh
    simp at hh
    omega
  rw [chunkList_cons n hn (l.drop n) hd]
  have hdd : (l.drop n).drop n = [] := by
    apply List.eq_nil_of_length_eq_zero
    simp only [List.length_drop]
    omega
  rw [hdd, chunkList_nil]
  simp only [List.map_cons, List.map_nil, List.length_take, List.length_drop,
    List.cons.injEq, and_true]
  omega

theorem deserializeKey_ok (k : Str) (config : Config) (h1 : k ≠ [])
    (h2 : k.head? ≠ some '+') : ∃ r, deserializeKey k config = .ok r := by
  rw [deserializeKey, if_neg (not_or.mpr ⟨h1, h2⟩)]
  cases config.keys.sk with
  | none => exact ⟨_, rfl⟩
  | some skName =>
    by_cases hq : skName = config.keys.pk
    · exact ⟨[(config.keys.pk, ⟨(splitOnChar '+' k)[1]?, none⟩)],
        by simp only [if_pos hq]⟩
    · exact ⟨[(config.keys.pk, ⟨some ((splitOnChar '+' k).headD []), none⟩),
        (skName, ⟨(splitOnChar '+' k)[1]?, none⟩)], by simp only [if_neg hq]⟩

theorem buildPutItem_ok (k : Str) (data : Item) (config : Config) (ttl now : Int)
    (h1 : k ≠ []) (h2 : k.head? ≠ some '+') :
    ∃ r, buildPutItem k data config ttl now = .ok r := by
  obtain ⟨dk, hdk⟩ := deserializeKey_ok k config h1 h2
  exact ⟨_, by rw [buildPutItem, hdk]⟩

/-- C7: `mget` sends one batch-get request per chunk of at most 100 keys,
and `mset` / `mdel` one batch-write request per chunk of at most 25
entries/keys; chunks cover the input in order, and a 150-key read
(resp. 30-entry write, 30-key delete) makes exactly two provider calls
sized 100 and 50 (resp. 25 and 5). -/
theorem batch_chunk_sizes (keys dkeys : List Str) (args : List (Str × Item))
    (config : Config) (ttlArg : Option Int) (now : Int)
    (hk : ∀ k ∈ keys, k ≠ [] ∧ k.head? ≠ some '+')
    (ha : ∀ p ∈ args, p.1 ≠ [] ∧ p.1.head? ≠ some '+')
    (hd : ∀ k ∈ dkeys, k ≠ [] ∧ k.head? ≠ some '+') :
    ∃ rs ws ds, DynamoDBStore.mgetRequests keys config = .ok rs ∧
      DynamoDBStore.msetRequests args config ttlArg now = .ok ws ∧
      DynamoDBStore.mdelRequests dkeys config = .ok ds ∧
      rs.map List.length = (chunkList 100 keys).map List.length ∧
      ws.map List.length = (chunkList 25 args).map List.length ∧
      ds.map List.length = (chunkList 25 dkeys).map List.length ∧
      (∀ c ∈ chunkList 100 keys, c.length ≤ 100) ∧
      (∀ c ∈ chunkList 25 args, c.length ≤ 25) ∧
      (∀ c ∈ chunkList 25 dkeys, c.length ≤ 25) ∧
      (chunkList 100 keys).flatten = keys ∧
      (chunkList 25 args).flatten = args ∧
      (chunkList 25 dkeys).flatten = dkeys ∧
      (keys.length = 150 → rs.map List.length = [100, 50]) ∧
      (args.length = 30 → ws.map List.length = [25, 5]) ∧
      (dkeys.length = 30 → ds.map List.length = [25, 5]) := by
  have hmemk : ∀ ks ∈ chunkList 100 keys, ∀ k ∈ ks, k ≠ [] ∧ k.head? ≠ some '+' := by
    intro ks hks k hkk
    apply hk
    rw [← chunkList_flatten 100 (by omega) keys]
    exact List.mem_flatten.mpr ⟨ks, hks, hkk⟩
  have hmema : ∀ vs ∈ chunkList 25 args, ∀ p ∈ vs, p.1 ≠ [] ∧ p.1.head? ≠ some '+' := by
    intro vs hvs p hp
    apply ha
    rw [← chunkList_flatten 25 (by omega) args]
    exact List.mem_flatten.mpr ⟨vs, hvs, hp⟩
  have hmemd : ∀ ks ∈ chunkList 25 dkeys, ∀ k ∈ ks, k ≠ [] ∧ k.head? ≠ some '+' := by
    intro ks hks k hkk
    apply hd
    rw [← chunkList_flatten 25 (by omega) dkeys]
    exact List.mem_flatten.mpr ⟨ks, hks, hkk⟩
  obtain ⟨rs, hrs, hrel⟩ := exceptMap_ok_rel
    (f := fun ks => buildMGetInput ks config)
    (P := fun ks (r : List Item) => r.length = ks.length)
    (chunkList 100 keys) (fun ks hks => by
      obtain ⟨r, hr, hlen, _⟩ := exceptMap_ok_exists ks (fun k hkk =>
        deserializeKey_ok k config (hmemk ks hks k hkk).1 (hmemk ks hks k hkk).2)
      exact ⟨r, hr, hlen⟩)
  obtain ⟨ws, hws, hrelw⟩ := exceptMap_ok_rel
    (f := fun vs => buildMSetInput vs config (resolveTtl ttlArg config.ttl) now)
    (P := fun vs (w : List Item) => w.length = vs.length)
    (chunkList 25 args) (fun vs hvs => by
      obtain ⟨w, hw, hlen, _⟩ := exceptMap_ok_exists vs (fun p hp =>
        buildPutItem_ok p.1 p.2 config (resolveTtl ttlArg config.ttl) now
          (hmema vs hvs p hp).1 (hmema vs hvs p hp).2)
      exact ⟨w, hw, hlen⟩)
  obtain ⟨ds, hds, hreld⟩ := exceptMap_ok_rel
    (f := fun ks => buildMDelInput ks config)
    (P := fun ks (d : List Item) => d.length = ks.length)
    (chunkList 25 dkeys) (fun ks hks => by
      obtain ⟨d, hdd, hlen, _⟩ := exceptMap_ok_exists ks (fun k hkk =>
        deserializeKey_ok k config (hmemd ks hks k hkk).1 (hmemd ks hks k hkk).2)
      exact ⟨d, hdd, hlen⟩)
  have hlens : rs.map List.length = (chunkList 100 keys).map List.length :=
    forall₂_map_length hrel
  have hlensw : ws.map List.length = (chunkList 25 args).map List.length :=
    forall₂_map_length hrelw
  have hlensd : ds.map List.length = (chunkList 25 dkeys).map List.length :=
    forall₂_map_length hreld
  refine ⟨rs, ws, ds, hrs, hws, hds, hlens, hlensw, hlensd,
    fun c hc => chunkList_mem_length 100 (by omega) keys c hc,
    fun c hc => chunkList_mem_length 25 (by omega) args c hc,
    fun c hc => chunkList_mem_length 25 (by omega) dkeys c hc,
    chunkList_flatten 100 (by omega) keys,
    chunkList_flatten 25 (by omega) args,
    chunkList_flatten 25 (by omega) dkeys, ?_, ?_, ?_⟩
  · intro h150
    rw [hlens, chunkList_two 100 (by omega) keys (by omega) (by omega), h150]
  · intro h30
    rw [hlensw, chunkList_two 25 (by omega) args (by omega) (by omega), h30]
  · intro h30
    rw [hlensd, chunkList_two 25 (by omega) dkeys (by omega) (by omega), h30]

/-- C7 witness: 150 replicated read keys, 30 replicated write entries and
30 replicated delete keys produce exactly the call shapes the claim
names. -/
theorem batch_chunk_sizes_witness :
    (∀ k ∈ List.replicate 150 (['a'] : Str), k ≠ [] ∧ k.head? ≠ some '+') ∧
    (∀ p ∈ List.replicate 30 (((['a'] : Str), ([] : Item))), p.1 ≠ [] ∧
      p.1.head? ≠ some '+') ∧
    (∀ k ∈ List.replicate 30 (['a'] : Str), k ≠ [] ∧ k.head? ≠ some '+') ∧
    ∃ rs ws ds,
      DynamoDBStore.mgetRequests (List.replicate 150 ['a']) cfg0 = .ok rs ∧
      DynamoDBStore.msetRequests (List.replicate 30 (['a'], [])) cfg0 none 0 = .ok ws ∧
      DynamoDBStore.mdelRequests (List.replicate 30 ['a']) cfg0 = .ok ds ∧
      rs.map List.length = [100, 50] ∧ ws.map List.length = [25, 5] ∧
      ds.map List.length = [25, 5] := by
  refine ⟨by decide, by decide, by decide, ?_⟩
  obtain ⟨rs, ws, ds, hh1, hh2, hh3, _, _, _, _, _, _, _, _, _, h13, h14, h15⟩ :=
    batch_chunk_sizes (List.replicate 150 ['a']) (List.replicate 30 ['a'])
      (List.replicate 30 (['a'], [])) cfg0 none 0 (by decide) (by decide) (by decide)
  exact ⟨rs, ws, ds, hh1, hh2, hh3, h13 (by simp), h14 (by simp), h15 (by simp)⟩

/-- C10: a ttl argument of `0` is falsy in `ttl || config.ttl || defaultTtl`,
so a zero ttl resolves exactly as an omitted one in `set`, `mset` and
`touch`; with no configured default the built-in 60000 ms applies. -/
theorem zero_ttl_uses_default (key : Str) (data : Item) (args : List (Str × Item))
    (config : Config) (now : Int) :
    resolveTtl (some 0) config.ttl = resolveTtl none config.ttl ∧
    DynamoDBStore.setOpInput key data config (some 0) now =
      DynamoDBStore.setOpInput key data config none now ∧
    DynamoDBStore.touchOp key config (some 0) now =
      DynamoDBStore.touchOp key config none now ∧
    DynamoDBStore.msetRequests args config (some 0) now =
      DynamoDBStore.msetRequests args config none now ∧
    resolveTtl (some 0) none = 60000 := by
  have h : resolveTtl (some 0) config.ttl = resolveTtl none config.ttl := by
    simp [resolveTtl]
  refine ⟨h, ?_, ?_, ?_, by decide⟩
  · rw [DynamoDBStore.setOpInput, DynamoDBStore.setOpInput, h]
  · rw [DynamoDBStore.touchOp, DynamoDBStore.touchOp, h]
  · rw [DynamoDBStore.msetRequests, DynamoDBStore.msetRequests, h]

theorem exceptMap_cons_ok {f : α → Except String β} (x : α) (xs : List α) (y : β)
    (hx : f x = .ok y) :
    exceptMap f (x :: xs) =
      match exceptMap f xs with
      | .error e => .error e
      | .ok ys => .ok (y :: ys) := by
  simp only [exceptMap, hx]

/-- C9: with no configured sort field, `serializeKey` reads the `.S` member
of `item['']`, which throws for every record lacking an attribute named by
the empty string; hence `keys()` and `mget` fail on any non-empty response
under a sort-less schema. -/
theorem sortless_serialize_fails (config : Config) (item : Item)
    (pages : List (List Item)) (keys1 : List Str)
    (provider : List Str → List Item) (now : Int)
    (hsk : config.keys.sk = none)
    (hitem : lookupAttr item [] = none)
    (hpages : ∀ it ∈ pages.flatten, lookupAttr it [] = none)
    (hpne : pages.flatten ≠ [])
    (hkeys : ∀ k ∈ keys1, k ≠ [] ∧ k.head? ≠ some '+')
    (hkne : keys1 ≠ [])
    (hprov : ∀ it ∈ provider (keys1.take 100), lookupAttr it [] = none)
    (hprovne : provider (keys1.take 100) ≠ []) :
    serializeKey item config = .error jsUndefinedError ∧
    (∃ e, DynamoDBStore.keysOp pages config = .error e) ∧
    (∃ e, DynamoDBStore.mget keys1 config now provider = .error e) := by
  have hser : ∀ it : Item, lookupAttr it [] = none →
      serializeKey it config = .error jsUndefinedError := by
    intro it hit
    rw [serializeKey]
    cases hpk : lookupAttr it config.keys.pk with
    | none => rfl
    | some pkAttr =>
      rw [hsk]
      simp only [Option.getD_none, hit]
  refine ⟨hser item hitem, ?_, ?_⟩
  · have hemap : ∀ ps : List (List Item),
        (∀ it ∈ List.flatten ps, lookupAttr it [] = none) →
        List.flatten ps ≠ [] →
        ∃ e, exceptMap (fun items => exceptMap (fun it =>
          match serializeKey it config with
          | .error e => .error e
          | .ok k => .ok (jsKeyOf k)) items) ps = .error e := by
      intro ps
      induction ps with
      | nil =>
        intro _ hne
        simp at hne
      | cons page rest ih =>
        intro hall hne
        cases page with
        | nil =>
          simp only [List.flatten_cons, List.nil_append] at hall hne
          obtain ⟨e, he⟩ := ih hall hne
          refine ⟨e, ?_⟩
          rw [exceptMap_cons_ok (f := fun items => exceptMap (fun it =>
            match serializeKey it config with
            | .error e => .error e
            | .ok k => .ok (jsKeyOf k)) items) [] rest ([] : List Str) rfl, he]
        | cons it its =>
          have hit : lookupAttr it [] = none :=
            hall it (List.mem_flatten.mpr
              ⟨it :: its, List.mem_cons_self _ _, List.mem_cons_self _ _⟩)
          refine ⟨jsUndefinedError, exceptMap_error_head _ _ _ ?_⟩
          apply exceptMap_error_head
          rw [hser it hit]
    obtain ⟨e, he⟩ := hemap pages hpages hpne
    exact ⟨e, by rw [DynamoDBStore.keysOp, he]⟩
  · have hchunk : DynamoDBStore.mgetChunk config now provider (keys1.take 100) =
        .error jsUndefinedError := by
      obtain ⟨bi, hbi, _, _⟩ := exceptMap_ok_exists (keys1.take 100)
        (fun k hkk => deserializeKey_ok k config
          (hkeys k (List.take_subset 100 keys1 hkk)).1
          (hkeys k (List.take_subset 100 keys1 hkk)).2)
      have hbg : buildMGetInput (keys1.take 100) config = .ok bi := hbi
      rw [DynamoDBStore.mgetChunk, hbg]
      cases hpl : provider (keys1.take 100) with
      | nil => exact absurd hpl hprovne
      | cons it its =>
        have hkm : DynamoDBStore.buildKeyMap config [] (it :: its) =
            .error jsUndefinedError := by
          simp only [DynamoDBStore.buildKeyMap,
            hser it (hprov it (by rw [hpl]; exact List.mem_cons_self _ _))]
        rw [hkm]
    refine ⟨jsUndefinedError, ?_⟩
    rw [DynamoDBStore.mget, chunkList_cons 100 (by omega) keys1 hkne,
      exceptMap_error_head _ _ _ hchunk]

/-- A sort-less configuration and a record without an empty-named
attribute, for the C9 witness. -/
def cfg1 : Config :=
  { table := "T".data
  , keys := { pk := "Id".data, sk := none, ex := "Ex".data }
  , ttl := none }

/-- The record the C9 witness stores and reads back. -/
def item1 : Item := [("Id".data, ⟨some "a".data, none⟩)]

/-- C9 witness: the failure theorem applied to a one-record page and a
one-key read under the sort-less configuration. -/
theorem sortless_serialize_fails_witness :
    cfg1.keys.sk = none ∧ lookupAttr item1 [] = none ∧
    (serializeKey item1 cfg1 = .error jsUndefinedError ∧
      (∃ e, DynamoDBStore.keysOp [[item1]] cfg1 = .error e) ∧
      (∃ e, DynamoDBStore.mget ["a".data] cfg1 0 (fun _ => [item1]) = .error e)) :=
  ⟨rfl, by decide,
    sortless_serialize_fails cfg1 item1 [[item1]] ["a".data] (fun _ => [item1]) 0
      rfl (by decide) (by decide) (by decide) (by decide) (by decide)
      (by decide) (by decide)⟩

/-- An already-expired record matching the key `"a+b"` under `cfg0`. -/
def item2 : Item :=
  [ ("Id".data, ⟨some "a".data, none⟩)
  , ("Name".data, ⟨some "b".data, none⟩)
  , ("ExpiresAt".data, ⟨none, some 1⟩) ]

/-- The store key `"a+b"` decodes to under `cfg0`. -/
def dk2 : Item :=
  [("Id".data, ⟨some "a".data, none⟩), ("Name".data, ⟨some "b".data, none⟩)]

/-- `item2` extended with a payload attribute `data = "v"`. -/
def item3 : Item :=
  [ ("Id".data, ⟨some "a".data, none⟩)
  , ("Name".data, ⟨some "b".data, none⟩)
  , ("ExpiresAt".data, ⟨none, some 1⟩)
  , ("data".data, ⟨some "v".data, none⟩) ]

/-- C5 (code bug): the claim (with the spec, section 4.4) says an entry
whose `expiresAt * 1000` lies in the past is returned as absent by `get`.
The code disagrees: `get` calls `isExpired` on the UNMARSHALLED record
(`isExpired(unmarshall(response.Item))`, `src/store.ts` lines 51-53), where
the expiration attribute is a plain number with no `.N` member, so the
test parses `NaN` and never fires.  At `now = 2000` ms the record expiring
at second 1 is returned with its payload `"v"`.  The claim's other two
legs do hold of the code and are evaluated here too: `keys()` still lists
the key, and no delete command is issued. -/
theorem expired_entry_returned_by_get :
    (1 : Int) * 1000 < 2000 ∧
    lookupAttr item3 cfg0.keys.ex = some ⟨none, some 1⟩ ∧
    DynamoDBStore.get "a+b".data cfg0 2000
      (fun k => if k = dk2 then some item3 else none) =
      .ok (some (UnVal.uStr "v".data)) ∧
    DynamoDBStore.keysOp [[item3]] cfg0 = .ok ["a+b".data] ∧
    CommandKind.deleteItem ∉ DynamoDBStore.keysCommands [[item3]] := by
  decide

/-- C8: `touch` resolves its ttl, builds an update request that names only
the expiration attribute, and applying that update leaves every other
attribute unchanged; the reported ttl strictly increases (for a ttl
reaching past the old expiration) and `get` still returns the original
payload attribute. -/
theorem touch_updates_only_expiration (config : Config) (key : Str)
    (item dk : Item) (t oldEx now now2 : Int)
    (ht : t ≠ 0)
    (hdk : deserializeKey key config = .ok dk)
    (hold : lookupAttr item config.keys.ex = some ⟨none, some oldEx⟩)
    (hbig : oldEx < msToS (now + t))
    (hfresh : ¬ msToS (now + t) * 1000 < now2)
    (hdata : config.keys.ex ≠ "data".data) :
    ∃ inp, DynamoDBStore.touchOp key config (some t) now = .ok inp ∧
      (∀ a, a ≠ config.keys.ex →
        lookupAttr (applyTouch inp item) a = lookupAttr item a) ∧
      DynamoDBStore.ttlOp key config now
        (fun k => if k = dk then some item else none) = .ok (oldEx * 1000 - now) ∧
      DynamoDBStore.ttlOp key config now
        (fun k => if k = dk then some (applyTouch inp item) else none) =
        .ok (msToS (now + t) * 1000 - now) ∧
      oldEx * 1000 - now < msToS (now + t) * 1000 - now ∧
      DynamoDBStore.get key config now2
        (fun k => if k = dk then some (applyTouch inp item) else none) =
        .ok (lookupUn (unmarshall item) "data".data) := by
  have hres : resolveTtl (some t) config.ttl = t := by
    simp [resolveTtl, ht]
  have hl : lookupAttr (applyTouch ⟨dk, config.keys.ex, msToS (now + t)⟩ item)
      config.keys.ex = some ⟨none, some (msToS (now + t))⟩ :=
    lookupAttr_cons_self _ _ _
  have hexp2 : isExpired
      (unmarshall (applyTouch ⟨dk, config.keys.ex, msToS (now + t)⟩ item))
      config now2 = .ok false :=
    isExpired_of_attr_present (by simp [hl])
  have hframe : ∀ a, a ≠ config.keys.ex →
      lookupAttr (applyTouch ⟨dk, config.keys.ex, msToS (now + t)⟩ item) a =
        lookupAttr item a :=
    fun a ha => lookupAttr_cons_ne _ _ _ _ (Ne.symm ha)
  have hud : lookupUn
      (unmarshall (applyTouch ⟨dk, config.keys.ex, msToS (now + t)⟩ item))
      "data".data = lookupUn (unmarshall item) "data".data := by
    rw [show unmarshall (applyTouch ⟨dk, config.keys.ex, msToS (now + t)⟩ item) =
      (config.keys.ex, unmarshallValue ⟨none, some (msToS (now + t))⟩) ::
        unmarshall item from rfl]
    exact lookupUn_cons_ne _ _ _ _ hdata
  refine ⟨⟨dk, config.keys.ex, msToS (now + t)⟩, ?_, hframe, ?_, ?_, by omega, ?_⟩
  · rw [DynamoDBStore.touchOp, hres, buildTouchInput, hdk]
  · simp only [DynamoDBStore.ttlOp, hdk, eq_self_iff_true, if_true, hold]
  · simp only [DynamoDBStore.ttlOp, hdk, eq_self_iff_true, if_true, hl]
  · simp only [DynamoDBStore.get, hdk, eq_self_iff_true, if_true, hexp2, hud]

/-- C8 witness: touching `"a+b"` with a 10-second ttl at `now = 2000` ms
moves the stored expiration from second 1 to second 12, the reported ttl
grows from `-1000` to `10000`, and `get` still returns the record's
original `data` attribute. -/
theorem touch_updates_only_expiration_witness :
    deserializeKey "a+b".data cfg0 = .ok dk2 ∧
    lookupAttr item2 cfg0.keys.ex = some ⟨none, some 1⟩ ∧
    ∃ inp, DynamoDBStore.touchOp "a+b".data cfg0 (some 10000) 2000 = .ok inp ∧
      (∀ a, a ≠ cfg0.keys.ex →
        lookupAttr (applyTouch inp item2) a = lookupAttr item2 a) ∧
      DynamoDBStore.ttlOp "a+b".data cfg0 2000
        (fun k => if k = dk2 then some item2 else none) = .ok (1 * 1000 - 2000) ∧
      DynamoDBStore.ttlOp "a+b".data cfg0 2000
        (fun k => if k = dk2 then some (applyTouch inp item2) else none) =
        .ok (msToS (2000 + 10000) * 1000 - 2000) ∧
      (1 : Int) * 1000 - 2000 < msToS (2000 + 10000) * 1000 - 2000 ∧
      DynamoDBStore.get "a+b".data cfg0 2000
        (fun k => if k = dk2 then some (applyTouch inp item2) else none) =
        .ok (lookupUn (unmarshall item2) "data".data) :=
  ⟨by decide, by decide,
    touch_updates_only_expiration cfg0 "a+b".data item2 dk2 10000 1 2000 2000
      (by decide) (by decide) (by decide) (by decide) (by decide) (by decide)⟩

/-- The record that wins the reduce-built index of an `mget` chunk for a
given caller key: the LAST response record whose serialized store key
equals that key (later `acc[key] = item` assignments overwrite earlier
ones). -/
def lastMatch (items : List Item) (k : Str) (config : Config) : Option Item :=
  items.reverse.find? (fun it => decide (serializeKey it config = .ok (some k)))

theorem lastMatch_mem {items : List Item} {k : Str} {config : Config} {it : Item}
    (h : lastMatch items k config = some it) : it ∈ items := by
  rw [lastMatch] at h
  exact List.mem_reverse.mp (List.mem_of_find?_eq_some h)

theorem lookupMap_cons (m : List (Str × Item)) (k k2 : Str) (it : Item) :
    DynamoDBStore.lookupMap ((k2, it) :: m) k =
      if k2 = k then some it else DynamoDBStore.lookupMap m k := by
  by_cases h : k2 = k
  · simp [DynamoDBStore.lookupMap, List.find?_cons_of_pos, h]
  · simp [DynamoDBStore.lookupMap, List.find?_cons_of_neg, h]

theorem buildKeyMap_lookup (config : Config) :
    ∀ items : List Item,
      (∀ it ∈ items, ∃ k', serializeKey it config = .ok (some k')) →
      ∀ acc, ∃ m, DynamoDBStore.buildKeyMap config acc items = .ok m ∧
        ∀ k, DynamoDBStore.lookupMap m k =
          (lastMatch items k config).or (DynamoDBStore.lookupMap acc k) := by
  intro items
  induction items with
  | nil =>
    intro _ acc
    refine ⟨acc, rfl, fun k => ?_⟩
    rw [lastMatch]
    simp
  | cons it rest ih =>
    intro h acc
    obtain ⟨k', hk'⟩ := h it (List.mem_cons_self it rest)
    obtain ⟨m, hm, hlook⟩ :=
      ih (fun z hz => h z (List.mem_cons_of_mem it hz)) ((k', it) :: acc)
    refine ⟨m, ?_, fun k => ?_⟩
    · rw [DynamoDBStore.buildKeyMap, hk']
      exact hm
    · have hlast : lastMatch (it :: rest) k config =
          (lastMatch rest k config).or (if k' = k then some it else none) := by
        rw [lastMatch, List.reverse_cons, List.find?_append, lastMatch]
        congr 1
        by_cases hkk : k' = k
        · subst hkk
          simp [List.find?, hk']
        · simp [List.find?, hk', hkk]
      rw [hlook k, hlast, Option.or_assoc, lookupMap_cons]
      by_cases hkk : k' = k <;> simp [hkk]

theorem mgetChunk_eval (config : Config) (now : Int)
    (provider : List Str → List Item) (ks : List Str)
    (hks : ∀ k ∈ ks, k ≠ [] ∧ k.head? ≠ some '+')
    (hitems : ∀ it ∈ provider ks,
      (∃ k', serializeKey it config = .ok (some k')) ∧
      lookupAttr it config.keys.ex ≠ none) :
    DynamoDBStore.mgetChunk config now provider ks =
      .ok (ks.map (fun k =>
        match lastMatch (provider ks) k config with
        | none => none
        | some it => lookupUn (unmarshall it) "data".data)) := by
  obtain ⟨bi, hbi, _, _⟩ := exceptMap_ok_exists ks (fun k hkk =>
    deserializeKey_ok k config (hks k hkk).1 (hks k hkk).2)
  have hbg : buildMGetInput ks config = .ok bi := hbi
  obtain ⟨m, hm, hlook⟩ := buildKeyMap_lookup config (provider ks)
    (fun it hit => (hitems it hit).1) []
  have hl2 : ∀ k, DynamoDBStore.lookupMap m k = lastMatch (provider ks) k config := by
    intro k
    rw [hlook k,
      show DynamoDBStore.lookupMap ([] : List (Str × Item)) k = none from rfl,
      Option.or_none]
  rw [DynamoDBStore.mgetChunk, hbg, hm]
  apply exceptMap_ok_of_forall
  intro k hkk
  simp only [hl2 k]
  cases hlm : lastMatch (provider ks) k config with
  | none => rfl
  | some it =>
    have hexpit : isExpired (unmarshall it) config now = .ok false :=
      isExpired_of_attr_present (hitems it (lastMatch_mem hlm)).2
    show (match isExpired (unmarshall it) config now with
      | Except.error e => Except.error e
      | Except.ok b => Except.ok
          (if b = true then none else lookupUn (unmarshall it) "data".data)) =
      Except.ok (lookupUn (unmarshall it) "data".data)
    simp [hexpit]

/-- C3 (amended): `mget` answers are assembled per chunk, strictly in the
caller's original key order (the chunks concatenate back to the input),
and each requested key is answered by the provider-native store key of the
response records — the last response record of the key's own chunk whose
serialized store key equals the requested key, decoded WHETHER OR NOT it
is expired (the expiry test inspects the `.N` member of the
already-unmarshalled record and never fires) — with keys matched by no
returned record reported absent. -/
theorem mget_alignment (keys : List Str) (config : Config) (now : Int)
    (provider : List Str → List Item)
    (hkeys : ∀ k ∈ keys, k ≠ [] ∧ k.head? ≠ some '+')
    (hitems : ∀ ks ∈ chunkList 100 keys, ∀ it ∈ provider ks,
      (∃ k', serializeKey it config = .ok (some k')) ∧
      lookupAttr it config.keys.ex ≠ none) :
    DynamoDBStore.mget keys config now provider =
      .ok ((chunkList 100 keys).map (fun ks => ks.map (fun k =>
        match lastMatch (provider ks) k config with
        | none => none
        | some it => lookupUn (unmarshall it) "data".data))).flatten ∧
    (chunkList 100 keys).flatten = keys ∧
    ∀ res, DynamoDBStore.mget keys config now provider = .ok res →
      res.length = keys.length := by
  have hch : exceptMap (DynamoDBStore.mgetChunk config now provider)
      (chunkList 100 keys) =
      .ok ((chunkList 100 keys).map (fun ks => ks.map (fun k =>
        match lastMatch (provider ks) k config with
        | none => none
        | some it => lookupUn (unmarshall it) "data".data))) :=
    exceptMap_ok_of_forall _ (fun ks hks => mgetChunk_eval config now provider ks
      (fun k hkk => hkeys k (by
        rw [← chunkList_flatten 100 (by omega) keys]
        exact List.mem_flatten.mpr ⟨ks, hks, hkk⟩))
      (hitems ks hks))
  refine ⟨by rw [DynamoDBStore.mget, hch], chunkList_flatten 100 (by omega) keys, ?_⟩
  intro res hres
  rw [DynamoDBStore.mget, hch] at hres
  injection hres with hres2
  subst hres2
  rw [List.length_flatten, List.map_map]
  have hsame : ((chunkList 100 keys).map
      (List.length ∘ fun ks => ks.map (fun k =>
        match lastMatch (provider ks) k config with
        | none => none
        | some it => lookupUn (unmarshall it) "data".data))).sum =
      ((chunkList 100 keys).map List.length).sum := by
    congr 1
    apply List.map_congr_left
    intro ks _
    simp
  rw [hsame, ← List.length_flatten, chunkList_flatten 100 (by omega) keys]

/-- C3 counterexample: the claim's "that is not expired" clause is false of
the code.  The single matching record expires at second 1 and is read at
`now = 2000` ms — expired — yet `mget` returns its payload `"v"` instead
of the absent marker, because the expiry test runs on the unmarshalled
record and never fires. -/
theorem mget_expired_counterexample :
    (1 : Int) * 1000 < 2000 ∧
    lookupAttr item3 cfg0.keys.ex = some ⟨none, some 1⟩ ∧
    serializeKey item3 cfg0 = .ok (some "a+b".data) ∧
    DynamoDBStore.mget ["a+b".data] cfg0 2000 (fun _ => [item3]) =
      .ok [some (UnVal.uStr "v".data)] := by
  refine ⟨by decide, by decide, by decide, ?_⟩
  have hc : chunkList 100 [("a+b".data : Str)] = [["a+b".data]] := by
    rw [chunkList_cons 100 (by omega) _ (by decide),
      show List.drop 100 [("a+b".data : Str)] = [] from rfl, chunkList_nil]
    rfl
  rw [DynamoDBStore.mget, hc]
  decide

/-- C3 witness: a two-key read whose single chunk's response holds one
record matching the first key; the first key gets that record's payload,
the second comes back absent, in the caller's order. -/
theorem mget_alignment_witness :
    (∀ k ∈ [("a+b".data : Str), "x+y".data], k ≠ [] ∧ k.head? ≠ some '+') ∧
    DynamoDBStore.mget ["a+b".data, "x+y".data] cfg0 2000 (fun _ => [item3]) =
      .ok [some (UnVal.uStr "v".data), none] := by
  refine ⟨by decide, ?_⟩
  have h := (mget_alignment ["a+b".data, "x+y".data] cfg0 2000 (fun _ => [item3])
    (by decide) (fun ks _ it hit => by
      have hit2 : it = item3 := by simpa using hit
      subst hit2
      exact ⟨⟨("a+b".data : Str), by decide⟩, by decide⟩)).1
  have hc : chunkList 100 [("a+b".data : Str), "x+y".data] =
      [["a+b".data, "x+y".data]] := by
    rw [chunkList_cons 100 (by omega) _ (by decide),
      show List.drop 100 [("a+b".data : Str), "x+y".data] = [] from rfl,
      chunkList_nil]
    rfl
  rw [h, hc]
  decide

/-- The pattern-validity rule exactly as the claim words it: the pattern
ends with exactly one mask character, contains exactly one delimiter, and
contains the mask character at most twice in total. -/
def claimedPatternValid (p : Str) : Prop :=
  p.getLast? = some '*' ∧ p.dropLast.getLast? ≠ some '*' ∧
    p.count '+' = 1 ∧ p.count '*' ≤ 2

instance (p : Str) : Decidable (claimedPatternValid p) := by
  unfold claimedPatternValid
  infer_instance

/-- C4 counterexample: `"a*+b*"` satisfies the claim's rule (ends with
exactly one mask, one delimiter, two masks in total) but the source rejects
it, because `pattern.split('*').length < 3` allows at most ONE mask; and
the empty pattern is accepted by the source (falsy, like an absent one)
although the claim's rule rejects it. -/
theorem validateKeyPattern_counterexample :
    claimedPatternValid "a*+b*".data ∧
      validateKeyPattern (some "a*+b*".data) ≠ .ok () ∧
      validateKeyPattern (some []) = .ok () ∧ ¬ claimedPatternValid [] := by
  decide

theorem validateKeyPattern_some_ok (s : Str) (hs : s ≠ []) :
    validateKeyPattern (some s) = .ok () ↔
      (endsWithChar '*' s = true ∧ (splitOnChar '*' s).length < 3 ∧
        (splitOnChar '+' s).length = 2) := by
  simp only [validateKeyPattern, if_neg hs]
  split
  · rename_i hcond
    simpa using hcond
  · rename_i hcond
    constructor
    · intro h
      simp at h
    · intro h
      exact absurd h hcond

/-- C4 (amended): `validateKeyPattern` succeeds exactly when the pattern is
absent or empty, or it ends with the mask character, contains the mask at
most once (hence exactly once, at the end), and contains exactly one
delimiter. -/
theorem validateKeyPattern_characterization (p : Option Str) :
    validateKeyPattern p = .ok () ↔
      (p = none ∨ p = some [] ∨
        ∃ s, p = some s ∧ s.getLast? = some '*' ∧ s.count '*' ≤ 1 ∧
          s.count '+' = 1) := by
  cases p with
  | none => simp [validateKeyPattern]
  | some s =>
    by_cases hs : s = []
    · subst hs
      simp [validateKeyPattern]
    · rw [validateKeyPattern_some_ok s hs]
      simp only [Option.some.injEq, false_or, reduceCtorEq]
      constructor
      · rintro ⟨h1, h2, h3⟩
        rw [splitOnChar_length] at h2 h3
        refine Or.inr ⟨s, rfl, ?_, by omega, by omega⟩
        simpa [endsWithChar] using h1
      · rintro (hfalse | ⟨s', hss, h1, h2, h3⟩)
        · exact absurd hfalse hs
        · cases hss
          refine ⟨by simpa [endsWithChar] using h1, ?_, ?_⟩ <;>
            rw [splitOnChar_length] <;> omega
